import Mathlib

/-!
Verification of the patch-generation-and-application safety pipeline of the
drupal-devops-copilot repository.  The Lean definitions below are shallow
embeddings of the Python source files `copilot/guards.py`,
`copilot/codegen/patch_applier.py` and `copilot/cli/ai_dev_task.py`:
strings are modelled as Lean `String` / `List Char`, the Python string
primitives (`splitlines`, `strip`, `startswith`, ...) are re-implemented
over `List Char`, and the two regular expressions used by the code are
translated into explicit first-match scanning functions.  Environment-driven
configuration (path allow/deny lists, size thresholds) becomes explicit
parameters, with the source defaults provided as named constants.
-/

namespace Copilot

/-- Characters that Python's `str.strip()` / `re`'s whitespace class treat as
whitespace, restricted to the code points that can occur in this pipeline. -/
def pyIsSpace (c : Char) : Bool :=
  c = ' ' || c = '\t' || c = '\n' || c = '\r' || c = '\x0b' || c = '\x0c' ||
  c = '\x1c' || c = '\x1d' || c = '\x1e' || c = '\x1f' || c = '\x85'

/-- Characters on which Python's `str.splitlines` breaks lines
(`\r\n` is additionally treated as a single break). -/
def pyIsLineBreak (c : Char) : Bool :=
  c = '\n' || c = '\r' || c = '\x0b' || c = '\x0c' ||
  c = '\x1c' || c = '\x1d' || c = '\x1e' || c = '\x85' ||
  c = '\u2028' || c = '\u2029'

/-- Worker for `str.splitlines`: `cur` is the reversed current line. -/
def splitlinesGo (keepends : Bool) (cur : List Char) : List Char → List (List Char)
  | [] => if cur.isEmpty then [] else [cur.reverse]
  | '\r' :: '\n' :: rest =>
      (cur.reverse ++ (if keepends then ['\r', '\n'] else [])) :: splitlinesGo keepends [] rest
  | c :: rest =>
      if pyIsLineBreak c then
        (cur.reverse ++ (if keepends then [c] else [])) :: splitlinesGo keepends [] rest
      else
        splitlinesGo keepends (c :: cur) rest

/-- Python `text.splitlines(keepends)` on a Lean string, as a list of lines. -/
def pySplitlines (keepends : Bool) (s : String) : List String :=
  (splitlinesGo keepends [] s.data).map (fun l => ⟨l⟩)

/-- Python `s.startswith(p)`. -/
def pyStartsWith (s p : String) : Bool := p.data.isPrefixOf s.data

/-- Python `s.endswith(p)`. -/
def pyEndsWith (s p : String) : Bool := p.data.isSuffixOf s.data

/-- Python `s.lstrip(chars)`: drop leading characters belonging to `chars`. -/
def pyLstripChars (chars : List Char) (s : String) : String :=
  ⟨s.data.dropWhile (fun c => chars.contains c)⟩

/-- Python `s.strip(chars)`: drop leading and trailing characters in `chars`. -/
def pyStripChars (chars : List Char) (s : String) : String :=
  ⟨((s.data.dropWhile (fun c => chars.contains c)).reverse.dropWhile
      (fun c => chars.contains c)).reverse⟩

/-- Python `s.strip()` (whitespace on both ends). -/
def pyStrip (s : String) : String :=
  ⟨((s.data.dropWhile pyIsSpace).reverse.dropWhile pyIsSpace).reverse⟩

/-- ASCII lowering of one character (model of `str.lower` on the ASCII inputs
this pipeline compares). -/
def pyLowerChar (c : Char) : Char :=
  if 'A' ≤ c ∧ c ≤ 'Z' then Char.ofNat (c.toNat + 32) else c

/-- Python `s.lower()` restricted to ASCII case mapping. -/
def pyLower (s : String) : String := ⟨s.data.map pyLowerChar⟩

/-- Python `s.replace(old, new)` for single-character `old`/`new`. -/
def pyReplaceChar (old new : Char) (s : String) : String :=
  ⟨s.data.map (fun c => if c = old then new else c)⟩

/-- First index `i` with `start ≤ i` at which `needle` occurs in `hay`
(the leftmost match a lazy regex group stops at). -/
def findSubFrom (needle : List Char) : List Char → Nat → Option Nat
  | [], start =>
      if needle.isEmpty ∧ start = 0 then some 0 else none
  | l@(_ :: tl), start =>
      match start with
      | 0 => if needle.isPrefixOf l then some 0 else
               (findSubFrom needle tl 0).map (· + 1)
      | start + 1 => (findSubFrom needle tl start).map (· + 1)

/-- Python list slicing `l[:3]` followed by `repr`-style rendering is only
needed for diagnostic strings; a single quote character, kept out of source
literals. -/
def squote : String := ⟨[Char.ofNat 39]⟩

/-- Render a list of strings the way a Python f-string renders `list[str]`
(used verbatim inside the risk reasons). -/
def pyReprStrList (l : List String) : String :=
  "[" ++ String.intercalate ", " (l.map (fun s => squote ++ s ++ squote)) ++ "]"

/-! ## guards.py -/

/-- Default of `COPILOT_ALLOWED_PATHS` (module constant `ALLOWED_PREFIXES`). -/
def ALLOWED_PREFIXES : List String :=
  ["modules/custom/", "themes/custom/", "profiles/custom/", "notes/", "server/", "ui/"]

/-- Default of `COPILOT_BLOCKED_PATHS` (module constant `BLOCKED_PREFIXES`). -/
def BLOCKED_PREFIXES : List String := ["vendor/", "core/", ".git/"]

/-- `HIGH_RISK_FILES` from guards.py: filenames whose exact presence among the
changed paths forces a high risk level. -/
def HIGH_RISK_FILES : List String :=
  [".gitlab-ci.yml", "composer.json", "composer.lock", "package.json",
   "pnpm-lock.yaml", "yarn.lock"]

/-- Default of `COPILOT_MAX_CHANGED_FILES`. -/
def MAX_CHANGED_FILES : Nat := 30

/-- Default of `COPILOT_MAX_TOTAL_LINES`. -/
def MAX_TOTAL_LINES : Nat := 2000

/-- Match of guards.py's `_DIFF_HEADER_RE`, i.e.
`^diff --git a/(.+?) b/(.+?)$`, against an already-stripped line.
The lazy first group ends at the first occurrence of `" b/"` (at offset ≥ 1);
the second group, forced by the `$` anchor, is the non-empty remainder. -/
def diffHeaderMatch (line : String) : Option (String × String) :=
  let cs := line.data
  if "diff --git a/".data.isPrefixOf cs then
    let r := cs.drop 13
    match findSubFrom " b/".data r 1 with
    | none => none
    | some i =>
        let g1 := r.take i
        let g2 := r.drop (i + 3)
        if g1.isEmpty ∨ g2.isEmpty ∨ g1.contains '\n' ∨ g2.contains '\n' then none
        else some (⟨g1⟩, ⟨g2⟩)
  else none

/-- guards.py `_changed_paths_from_patch`: the `b/` side of every
diff header line, after stripping the line. -/
def _changed_paths_from_patch (patch : String) : List String :=
  (pySplitlines false patch).filterMap
    (fun line => (diffHeaderMatch (pyStrip line)).map (fun m => m.2))

/-- guards.py `_count_added_removed`: counts of `+`/`-` lines, ignoring the
`+++ ` / `--- ` file headers. -/
def _count_added_removed (patch : String) : Nat × Nat :=
  (pySplitlines false patch).foldl
    (fun (ar : Nat × Nat) line =>
      if pyStartsWith line "+++ " ∨ pyStartsWith line "--- " then ar
      else if pyStartsWith line "+" then (ar.1 + 1, ar.2)
      else if pyStartsWith line "-" then (ar.1, ar.2 + 1)
      else ar)
    (0, 0)

/-- guards.py `_is_prefix`: whether `path`, after `lstrip("./")`, starts with
one of the non-empty prefixes. -/
def pathMatchesPrefix (path : String) (prefixes : List String) : Bool :=
  let path := pyLstripChars ['.', '/'] path
  prefixes.any (fun p => !p.isEmpty && pyStartsWith path p)

/-- guards.py dataclass `PatchRisk`. -/
structure PatchRisk where
  files : List String
  total_added : Nat
  total_removed : Nat
  blocked : List String
  out_of_scope : List String
  high_risk : List String
  risk_level : String
  reason : String
  deriving Repr, DecidableEq

/-- guards.py `assess_patch_risk`, with the environment-driven configuration
(allow/deny prefixes and the two size thresholds) as explicit parameters;
`assess_patch_risk_default` fixes them to the source defaults.  The sequential
mutation of `level`/`reason_parts` in the source becomes a chain of lets. -/
def assess_patch_risk (allowed blocked_prefixes : List String)
    (maxFiles maxLines : Nat) (patch : String) : PatchRisk :=
  let files := _changed_paths_from_patch patch
  let ar := _count_added_removed patch
  let added := ar.1
  let removed := ar.2
  let blocked := files.filter (fun f => pathMatchesPrefix f blocked_prefixes)
  let out_of_scope := files.filter (fun f => !pathMatchesPrefix f allowed)
  let high_risk := files.filter (fun f => HIGH_RISK_FILES.contains f)
  let level0 := "low"
  let parts0 : List String := []
  let level1 := if blocked.isEmpty then level0 else "high"
  let parts1 := if blocked.isEmpty then parts0 else
    parts0 ++ ["blocked paths: " ++ pyReprStrList (blocked.take 3) ++
      (if blocked.length > 3 then "..." else "")]
  let level2 := if high_risk.isEmpty then level1 else "high"
  let parts2 := if high_risk.isEmpty then parts1 else
    parts1 ++ ["high-risk files: " ++ pyReprStrList (high_risk.take 3) ++
      (if high_risk.length > 3 then "..." else "")]
  let sizeHit := files.length > maxFiles ∨ added + removed > maxLines
  let level3 := if sizeHit then "high" else level2
  let parts3 := if sizeHit then
    parts2 ++ ["size limit exceeded (files=" ++ toString files.length ++
      ", lines=" ++ toString (added + removed) ++ ")"]
    else parts2
  let scopeHit := level3 ≠ "high" ∧ ¬out_of_scope.isEmpty
  let level4 := if scopeHit then "medium" else level3
  let parts4 := if scopeHit then
    parts3 ++ ["out-of-scope paths: " ++ pyReprStrList (out_of_scope.take 3) ++
      (if out_of_scope.length > 3 then "..." else "")]
    else parts3
  let level5 := if files.isEmpty then "low" else level4
  let parts5 := if files.isEmpty then parts4 ++ ["no file headers found"] else parts4
  let reason := if parts5.isEmpty then "OK" else String.intercalate "; " parts5
  { files := files
    total_added := added
    total_removed := removed
    blocked := blocked
    out_of_scope := out_of_scope
    high_risk := high_risk
    risk_level := level5
    reason := reason }

/-- `assess_patch_risk` at the source's default configuration. -/
def assess_patch_risk_default (patch : String) : PatchRisk :=
  assess_patch_risk ALLOWED_PREFIXES BLOCKED_PREFIXES MAX_CHANGED_FILES MAX_TOTAL_LINES patch

/-! ## codegen/patch_applier.py -/

/-- Match of `PatchApplier.DIFF_START`, i.e. `^diff --git a/(.+?) b/(.+?)\s*$`,
against a line that still carries its terminator (`splitlines(keepends=True)`).
The lazy first group ends at the first `" b/"` occurrence (offset ≥ 1); the
lazy second group, bounded by `\s*$`, is the remainder with its trailing
whitespace run removed — except that when the remainder is whitespace only,
the group greedily keeps its first character provided `.` can match it
(anything but a newline). -/
def diffStartMatch (line : String) : Option (String × String) :=
  let cs := line.data
  if "diff --git a/".data.isPrefixOf cs then
    let r := cs.drop 13
    match findSubFrom " b/".data r 1 with
    | none => none
    | some i =>
        let g1 := r.take i
        let rest2 := r.drop (i + 3)
        let g2ws := (rest2.reverse.dropWhile pyIsSpace).reverse
        let g2 := if g2ws.isEmpty then rest2.take 1 else g2ws
        if g1.isEmpty ∨ g2.isEmpty ∨ g1.contains '\n' ∨ g2.contains '\n' then none
        else some (⟨g1⟩, ⟨g2⟩)
  else none

/-- Whether a (keepends) line is a `diff --git` block start. -/
def isDiffStart (line : String) : Bool := (diffStartMatch line).isSome

/-- Target path of one accumulated block, as computed at the end of the inner
loop of `PatchApplier._parse_blocks`: the first `+++ b/` line wins, else the
`b`-side of the `diff --git` marker. -/
def blockTarget (bPath : String) (block : List String) : String :=
  match block.find? (fun ln => pyStartsWith ln "+++ b/") with
  | some ln => (pyStrip ln).drop 6
  | none => bPath

/-- Emit one finished block: `blkRev` holds its lines in reverse accumulation
order, `b` the `b`-side path of its `diff --git` marker. -/
def flushBlock (b : String) (blkRev : List String) : String × List String :=
  let block := blkRev.reverse
  (blockTarget b block, block)

/-- Line scan of `PatchApplier._parse_blocks`: lines before the first
`diff --git` marker are skipped; a marker closes the block under accumulation
(if any) and opens a new one; every other line joins the open block. -/
def parseGo (cur : Option (String × List String)) :
    List String → List (String × List String)
  | [] =>
      match cur with
      | none => []
      | some st => [flushBlock st.1 st.2]
  | l :: ls =>
      match diffStartMatch l with
      | some m =>
          match cur with
          | none => parseGo (some (m.2, [l])) ls
          | some st => flushBlock st.1 st.2 :: parseGo (some (m.2, [l])) ls
      | none =>
          match cur with
          | none => parseGo none ls
          | some st => parseGo (some (st.1, l :: st.2)) ls

/-- `PatchApplier._parse_blocks` on the keepends line list. -/
def parseBlocks (lines : List String) : List (String × List String) :=
  parseGo none lines

/-- `PatchApplier._parse_blocks` on raw text. -/
def _parse_blocks (text : String) : List (String × List String) :=
  parseBlocks (pySplitlines true text)

/-- The two allowlist tuples held by a `PatchApplier`. -/
structure PatchApplier where
  allowed_dirs : List String
  allowed_suffixes : List String
  deriving Repr, DecidableEq

/-- `PatchApplier.__init__`: directory prefixes are normalized to end in a
trailing slash; suffixes are stored as given. -/
def PatchApplier.init (allowed_dirs allowed_suffixes : List String) : PatchApplier :=
  { allowed_dirs := allowed_dirs.map (fun d => if pyEndsWith d "/" then d else d ++ "/")
    allowed_suffixes := allowed_suffixes }

/-- `PatchApplier._accept_path`. -/
def PatchApplier.acceptPath (self : PatchApplier) (path : String) : Bool :=
  if !self.allowed_dirs.isEmpty &&
      !(self.allowed_dirs.any fun pref => pyStartsWith path pref) then false
  else if !self.allowed_suffixes.isEmpty &&
      !(self.allowed_suffixes.any fun suf => pyEndsWith path suf) then false
  else true

/-- `PatchApplier._clean_block`: drop every line beginning with `index `. -/
def _clean_block : List String → List String
  | [] => []
  | ln :: rest =>
      if pyStartsWith ln "index " then _clean_block rest else ln :: _clean_block rest

/-- `PatchApplier._assemble`: concatenate blocks, adding a newline after any
block whose last line does not already end in one (or which is empty). -/
def _assemble (blocks : List (List String)) : String :=
  String.join (blocks.map fun b =>
    String.join b ++
      match b.getLast? with
      | some last => if pyEndsWith last "\n" then "" else "\n"
      | none => "\n")

/-- The `kept` list built inside `PatchApplier.apply_patch`: parsed blocks
whose target passes `_accept_path`, each cleaned by `_clean_block`. -/
def PatchApplier.keptBlocks (self : PatchApplier) (patch_text : String) :
    List (List String) :=
  ((_parse_blocks patch_text).filter (fun tb => self.acceptPath tb.1)).map
    (fun tb => _clean_block tb.2)

/-- `PatchApplier.apply_patch`, with the `git apply --index` subprocess
abstracted as `runGitApply` (it receives the assembled sanitized patch and
either succeeds or reports the tool failure).  The guardrail rejection happens
before `runGitApply` is consulted, so a result independent of `runGitApply`
shows the apply mechanism was never invoked. -/
def PatchApplier.apply_patch (self : PatchApplier)
    (runGitApply : String → Except String Unit) (patch_text : String) :
    Except String Unit :=
  let kept := self.keptBlocks patch_text
  if kept.isEmpty then
    Except.error "No eligible changes found after guardrails filtering."
  else
    runGitApply (_assemble kept)

/-! ## cli/ai_dev_task.py -/

/-- `_normalize_repo_path`: strip leading slashes, turn backslashes into
slashes, then apply the docroot rewriting rules. -/
def _normalize_repo_path (p : String) (docroot : String) : String :=
  let p := pyReplaceChar '\\' '/' (pyLstripChars ['/'] p)
  if pyStartsWith p "docroot/" then docroot ++ p.drop 7
  else if pyStartsWith p "web/" then docroot ++ p.drop 3
  else if pyStartsWith p "modules/" then docroot ++ "/" ++ p
  else p

/-- The docroot rewriting rules of `_normalize_repo_path`, taken on their own
(they apply after the slash/backslash normalization). -/
def docrootRewrite (docroot p : String) : String :=
  if pyStartsWith p "docroot/" then docroot ++ p.drop 7
  else if pyStartsWith p "web/" then docroot ++ p.drop 3
  else if pyStartsWith p "modules/" then docroot ++ "/" ++ p
  else p

/-- Lexical model of `(repo / p).resolve().relative_to(repo)`: process the
`/`-separated segments, skipping empty and `.` segments, popping on `..`;
`none` when the path escapes the repository root.  (`acc` is the reversed
stack of segments.)  A path that re-enters the root after first escaping it,
or that traverses symlinks, depends on the root's concrete location and is
conservatively treated as outside. -/
def resolveSegs (acc : List String) : List String → Option (List String)
  | [] => some acc.reverse
  | seg :: rest =>
      if seg = "" ∨ seg = "." then resolveSegs acc rest
      else if seg = ".." then
        match acc with
        | [] => none
        | _ :: tl => resolveSegs tl rest
      else resolveSegs (seg :: acc) rest

/-- Split on `/` into (possibly empty) segments, like `str.split("/")`. -/
def splitSegsGo (cur : List Char) : List Char → List String
  | [] => [⟨cur.reverse⟩]
  | '/' :: rest => (⟨cur.reverse⟩ : String) :: splitSegsGo [] rest
  | c :: rest => splitSegsGo (c :: cur) rest

/-- Segments of the write target relative to the repository root, or `none`
when resolution leaves the root (including an absolute path, which `repo / p`
would re-anchor outside the abstract root). -/
def resolveUnderRoot (p_norm : String) : Option (List String) :=
  if pyStartsWith p_norm "/" then none
  else resolveSegs [] (splitSegsGo [] p_norm.data)

/-- `_allowed_path`: target must resolve inside the repository root and, when
an allowlist is configured (a non-empty list), the relative path must equal an
allowed prefix (stripped of slashes, case-insensitively) or live under it. -/
def _allowed_path (p_norm : String) (allowed_dirs : List String) : Bool :=
  match resolveUnderRoot p_norm with
  | none => false
  | some segs =>
      if allowed_dirs.isEmpty then true
      else
        let rel := if segs.isEmpty then "." else String.intercalate "/" segs
        allowed_dirs.any fun d =>
          let dnorm := pyLower (pyStripChars ['/'] d)
          pyStartsWith (pyLower rel) (dnorm ++ "/") || pyLower rel = dnorm

/-- `os.path.splitext(p)[1]`: the extension starting at the last dot of the
basename, unless only leading dots precede it. -/
def pySplitextExt (p : String) : String :=
  let base := (p.data.reverse.takeWhile (fun c => c ≠ '/')).reverse
  let rest := base.drop (base.takeWhile (fun c => c = '.')).length
  if rest.contains '.' then
    ⟨'.' :: (rest.reverse.takeWhile (fun c => c ≠ '.')).reverse⟩
  else ""

/-- One manifest entry after JSON decoding: `none` components model values
that are not strings (such entries are skipped by the writer). -/
structure ManifestEntry where
  path : Option String
  content : Option String
  deriving Repr, DecidableEq

/-- The modelled working tree: resolved path segments ↦ file content. -/
abbrev FileSys := List (List String × String)

/-- Overwrite-or-create a file in the modelled working tree. -/
def fsSet (fs : FileSys) (key : List String) (v : String) : FileSys :=
  (List.filter (fun kv => kv.1 ≠ key) fs) ++ [(key, v)]

/-- The entry loop of `_write_files_from_manifest`, threading the working tree
explicitly.  `phpSan` abstracts `_php_sanitize` (applied to `.php`, `.module`
and `.inc` files); the result is the final working tree, the list of written
targets, and the error raised, if any.  Each validated entry is written
immediately, before the next entry is examined. -/
def writeManifestLoop (phpSan : String → String) (allowed_dirs : List String)
    (docroot : String) (fs : FileSys) (written : List (List String)) :
    List ManifestEntry → (FileSys × List (List String)) × Option String
  | [] => ((fs, written), none)
  | e :: rest =>
    match e.path, e.content with
    | some p, some c =>
        let p_norm := _normalize_repo_path p docroot
        if _allowed_path p_norm allowed_dirs then
          let segs := (resolveUnderRoot p_norm).getD []
          let ext := pyLower (pySplitextExt p_norm)
          let c := if ext = ".php" ∨ ext = ".module" ∨ ext = ".inc" then phpSan c else c
          writeManifestLoop phpSan allowed_dirs docroot (fsSet fs segs c)
            (written ++ [segs]) rest
        else ((fs, written), some ("Path not allowed by guardrails: " ++ p_norm))
    | _, _ => writeManifestLoop phpSan allowed_dirs docroot fs written rest

/-- `_write_files_from_manifest`: the manifest's `files` member is `none` when
absent or not a list (the "Manifest has no files array" error; the
"not a JSON object" case is ruled out by typing the manifest). -/
def _write_files_from_manifest (phpSan : String → String)
    (allowed_dirs : List String) (docroot : String) (fs : FileSys)
    (files : Option (List ManifestEntry)) :
    (FileSys × List (List String)) × Option String :=
  match files with
  | none =>
      ((fs, []), some ("Manifest has no " ++ squote ++ "files" ++ squote ++ " array"))
  | some fl =>
      if fl.isEmpty then
        ((fs, []), some ("Manifest has no " ++ squote ++ "files" ++ squote ++ " array"))
      else writeManifestLoop phpSan allowed_dirs docroot fs [] fl

/-! ## JSON escape repair (ai_dev_task.py) -/

/-- The valid JSON escape characters (`valid_esc` in
`_json_escape_repair_in_strings`). -/
def validEscB (c : Char) : Bool :=
  c = '"' || c = '\\' || c = '/' || c = 'b' || c = 'f' ||
  c = 'n' || c = 'r' || c = 't' || c = 'u'

/-- Character loop of `_json_escape_repair_in_strings`, with the `in_str` and
`esc` state flags explicit: inside a string, a backslash followed by a
character outside the valid escape set receives one extra backslash. -/
def repair1Go (inStr esc : Bool) : List Char → List Char
  | [] => []
  | ch :: rest =>
      if !inStr then
        if ch = '"' then ch :: repair1Go true esc rest
        else ch :: repair1Go false esc rest
      else if esc then
        if validEscB ch then ch :: repair1Go true false rest
        else '\\' :: ch :: repair1Go true false rest
      else if ch = '\\' then ch :: repair1Go true true rest
      else if ch = '"' then ch :: repair1Go false esc rest
      else ch :: repair1Go true esc rest

/-- `_json_escape_repair_in_strings`. -/
def _json_escape_repair_in_strings (raw : String) : String :=
  ⟨repair1Go false false raw.data⟩

/-- Character loop of `_escape_ctrl_in_strings`: literal newline, carriage
return and tab characters inside a string become two-character escapes. -/
def escCtrlGo (inStr esc : Bool) : List Char → List Char
  | [] => []
  | ch :: rest =>
      if !inStr then
        if ch = '"' then ch :: escCtrlGo true esc rest
        else ch :: escCtrlGo false esc rest
      else if esc then ch :: escCtrlGo true false rest
      else if ch = '\\' then ch :: escCtrlGo true true rest
      else if ch = '"' then ch :: escCtrlGo false esc rest
      else if ch = '\n' then '\\' :: 'n' :: escCtrlGo true esc rest
      else if ch = '\r' then '\\' :: 'r' :: escCtrlGo true esc rest
      else if ch = '\t' then '\\' :: 't' :: escCtrlGo true esc rest
      else ch :: escCtrlGo true esc rest

/-- `_escape_ctrl_in_strings`. -/
def _escape_ctrl_in_strings (txt : String) : String :=
  ⟨escCtrlGo false false txt.data⟩

/-- The repair pipeline applied by `_try_manifest_generation` after a failed
strict parse: escape repair, then control-character escaping. -/
def repairPipeline (l : List Char) : List Char :=
  escCtrlGo false false (repair1Go false false l)

/-- The effect the escape repair is meant to have on the contents of one
string literal: each backslash (which, by hypothesis, precedes an invalid
escape character) is doubled. -/
def escInvalid : List Char → List Char
  | [] => []
  | '\\' :: c :: rest => '\\' :: '\\' :: c :: escInvalid rest
  | c :: rest => c :: escInvalid rest

/-- Intended literal string contents the repair pass is designed for: no raw
quote, no raw control character, and every backslash followed by a character
outside the valid JSON escape set (so never a trailing backslash). -/
def goodLitB : List Char → Bool
  | [] => true
  | '\\' :: c :: rest => !validEscB c && decide (c.toNat ≥ 32) && goodLitB rest
  | c :: rest => decide (c ≠ '"') && decide (c ≠ '\\') && decide (c.toNat ≥ 32) && goodLitB rest

/-- Single-character JSON escapes as accepted by `json.loads`. -/
def decodeEsc (c : Char) : Option Char :=
  if c = '"' then some '"'
  else if c = '\\' then some '\\'
  else if c = '/' then some '/'
  else if c = 'b' then some '\x08'
  else if c = 'f' then some '\x0c'
  else if c = 'n' then some '\n'
  else if c = 'r' then some '\r'
  else if c = 't' then some '\t'
  else none

/-- Value of a hexadecimal digit. -/
def hexDigit? (c : Char) : Option Nat :=
  if '0' ≤ c ∧ c ≤ '9' then some (c.toNat - 48)
  else if 'a' ≤ c ∧ c ≤ 'f' then some (c.toNat - 87)
  else if 'A' ≤ c ∧ c ≤ 'F' then some (c.toNat - 55)
  else none

/-- Scanner for the body of a JSON string literal, as `json.loads` reads it:
stops at the closing quote, decodes escapes (`\uXXXX` included; lone
surrogates, which Lean characters cannot carry, are rejected by the model)
and refuses raw control characters. -/
def jsonScanGo : List Char → Option (List Char × List Char)
  | [] => none
  | '"' :: rest => some ([], rest)
  | '\\' :: 'u' :: h1 :: h2 :: h3 :: h4 :: rest =>
      (match hexDigit? h1, hexDigit? h2, hexDigit? h3, hexDigit? h4 with
       | some a, some b, some c, some d =>
           let n := ((a * 16 + b) * 16 + c) * 16 + d
           if 0xd800 ≤ n ∧ n ≤ 0xdfff then none
           else (jsonScanGo rest).map (fun p => (Char.ofNat n :: p.1, p.2))
       | _, _, _, _ => none)
  | '\\' :: e :: rest =>
      (match decodeEsc e with
       | some c => (jsonScanGo rest).map (fun p => (c :: p.1, p.2))
       | none => none)
  | c :: rest =>
      if c.toNat < 32 then none
      else (jsonScanGo rest).map (fun p => (c :: p.1, p.2))

/-- A JSON string token: an opening quote, then the scanned body; returns the
decoded contents and the unconsumed remainder. -/
def jsonParseStringToken : List Char → Option (List Char × List Char)
  | '"' :: rest => jsonScanGo rest
  | _ => none

/-- Parser state invariant: the open block was started by a marker line whose
`b`-path is the stored target default. -/
def curOK : Option (String × List String) → Prop
  | none => True
  | some st => ∃ rev0 l m, st.2 = rev0 ++ [l] ∧ diffStartMatch l = some m ∧ m.2 = st.1

/-- A concrete headerless patch text: `n` copies of the line `+x`,
each newline-terminated. -/
def bigChars : Nat → List Char
  | 0 => []
  | n + 1 => '+' :: 'x' :: '\n' :: bigChars n

/-! ## Theorems -/

/-- One `+x` line is split off the front of the line scan. -/
theorem splitlinesGo_step (keep : Bool) (rest : List Char) :
    splitlinesGo keep [] ('+' :: 'x' :: '\n' :: rest) =
      (['+', 'x'] ++ if keep then ['\n'] else []) :: splitlinesGo keep [] rest := rfl

/-- `splitlines` of the headerless patch: `n` lines `+x`. -/
theorem splitlines_bigChars (keep : Bool) (n : Nat) :
    splitlinesGo keep [] (bigChars n) =
      List.replicate n (['+', 'x'] ++ if keep then ['\n'] else []) := by
  induction n with
  | zero => rfl
  | succ n ih => rw [bigChars, splitlinesGo_step, ih, List.replicate_succ]

/-- The headerless patch splits into `n` lines `+x`. -/
theorem pySplitlines_bigChars (n : Nat) :
    pySplitlines false ⟨bigChars n⟩ = List.replicate n "+x" := by
  unfold pySplitlines
  show (splitlinesGo false [] (bigChars n)).map _ = _
  rw [splitlines_bigChars]
  simp [List.map_replicate]

/-- The headerless patch counts `n` added and zero removed lines. -/
theorem count_bigChars (n : Nat) :
    _count_added_removed ⟨bigChars n⟩ = (n, 0) := by
  unfold _count_added_removed
  rw [pySplitlines_bigChars]
  have key : ∀ m a r, (List.replicate m "+x").foldl
      (fun (ar : Nat × Nat) line =>
        if pyStartsWith line "+++ " ∨ pyStartsWith line "--- " then ar
        else if pyStartsWith line "+" then (ar.1 + 1, ar.2)
        else if pyStartsWith line "-" then (ar.1, ar.2 + 1)
        else ar) (a, r) = (a + m, r) := by
    intro m
    induction m with
    | zero => intro a r; simp
    | succ m ih =>
        intro a r
        rw [List.replicate_succ, List.foldl_cons]
        have h1 : (pyStartsWith "+x" "+++ " ∨ pyStartsWith "+x" "--- ") = False := by decide
        have h2 : pyStartsWith "+x" "+" = true := by decide
        simp only [h1, h2, if_true, if_false]
        rw [ih (a + 1) r]
        have h3 : a + 1 + m = a + (m + 1) := by omega
        rw [h3]
  have := key n 0 0
  simpa using this

/-- The headerless patch contains no changed-path headers. -/
theorem files_bigChars (n : Nat) :
    _changed_paths_from_patch ⟨bigChars n⟩ = [] := by
  unfold _changed_paths_from_patch
  rw [pySplitlines_bigChars]
  induction n with
  | zero => rfl
  | succ n ih =>
      rw [List.replicate_succ, List.filterMap_cons]
      have : diffHeaderMatch (pyStrip "+x") = none := by decide
      rw [this]
      exact ih

/-- C2 counterexample: a patch with zero diff-start headers but 2001 added
lines — above the default max-total-lines threshold of 2000 — is classified
`low`, not `high`: the final no-file-headers rule overrides the size rule. -/
theorem headerless_oversize_cex :
    (assess_patch_risk_default ⟨bigChars 2001⟩).risk_level = "low" ∧
    (assess_patch_risk_default ⟨bigChars 2001⟩).total_added +
      (assess_patch_risk_default ⟨bigChars 2001⟩).total_removed = 2001 ∧
    MAX_TOTAL_LINES = 2000 ∧
    (assess_patch_risk_default ⟨bigChars 2001⟩).files = [] := by
  have hf := files_bigChars 2001
  have hc := count_bigChars 2001
  refine ⟨?_, ?_, rfl, ?_⟩ <;>
    (unfold assess_patch_risk_default assess_patch_risk; rw [hf, hc]) <;> norm_num

/-- C2 (amended): whenever at least one changed-path header is present, the
risk level is exactly: `high` iff blocked paths, high-risk files, or a size
threshold is hit; else `medium` iff some path is out of scope; else `low`.
A patch with no changed-path headers is always `low`, even over the line
threshold. -/
theorem risk_level_invariant (allowed blocked : List String) (maxF maxL : Nat)
    (patch : String)
    (h : (assess_patch_risk allowed blocked maxF maxL patch).files ≠ []) :
    (assess_patch_risk allowed blocked maxF maxL patch).risk_level =
      (if (assess_patch_risk allowed blocked maxF maxL patch).blocked ≠ [] ∨
          (assess_patch_risk allowed blocked maxF maxL patch).high_risk ≠ [] ∨
          (assess_patch_risk allowed blocked maxF maxL patch).files.length > maxF ∨
          (assess_patch_risk allowed blocked maxF maxL patch).total_added +
            (assess_patch_risk allowed blocked maxF maxL patch).total_removed > maxL
       then "high"
       else if (assess_patch_risk allowed blocked maxF maxL patch).out_of_scope ≠ []
       then "medium" else "low") := by
  unfold assess_patch_risk at h ⊢
  dsimp only at h ⊢
  have hfe : (_changed_paths_from_patch patch).isEmpty = false := by
    cases hfe : (_changed_paths_from_patch patch).isEmpty
    · rfl
    · exact absurd (List.isEmpty_iff.1 hfe) h
  by_cases hs : ((_changed_paths_from_patch patch).length > maxF ∨
      (_count_added_removed patch).1 + (_count_added_removed patch).2 > maxL) <;>
  by_cases hb : List.filter (fun f => pathMatchesPrefix f blocked)
      (_changed_paths_from_patch patch) = [] <;>
  by_cases hh : List.filter (fun f => HIGH_RISK_FILES.contains f)
      (_changed_paths_from_patch patch) = [] <;>
  by_cases ho : List.filter (fun f => !pathMatchesPrefix f allowed)
      (_changed_paths_from_patch patch) = [] <;>
  (simp_all [List.isEmpty_iff]; all_goals rw [if_neg (by omega)])

/-- Block count of the parse, for any starting state: one block per marker
line, plus one for the block left open on entry. -/
theorem parseGo_length (ls : List String) :
    ∀ cur, (parseGo cur ls).length =
      (ls.filter isDiffStart).length +
        (match cur with | none => 0 | some _ => 1) := by
  induction ls with
  | nil => intro cur; cases cur <;> simp [parseGo]
  | cons l ls ih =>
      intro cur
      rcases hm : diffStartMatch l with _ | m <;> cases cur <;>
        simp [parseGo, hm, isDiffStart, List.filter_cons, ih]

/-- With a block open, the parse distributes every remaining line into the
emitted blocks. -/
theorem parseGo_join_some (ls : List String) :
    ∀ b rev, (List.map Prod.snd (parseGo (some (b, rev)) ls)).flatten =
      rev.reverse ++ ls := by
  induction ls with
  | nil => intro b rev; simp [parseGo, flushBlock]
  | cons l ls ih =>
      intro b rev
      rcases hm : diffStartMatch l with _ | m
      · simp [parseGo, hm, ih]
      · simp [parseGo, hm, flushBlock, ih]

/-- The lines of all emitted blocks are exactly the input from the first
marker line on; the prefix before it lands in no block. -/
theorem parseGo_join_none (ls : List String) :
    (List.map Prod.snd (parseGo none ls)).flatten =
      ls.dropWhile (fun l => !isDiffStart l) := by
  induction ls with
  | nil => simp [parseGo]
  | cons l ls ih =>
      rcases hm : diffStartMatch l with _ | m
      · have h : isDiffStart l = false := by simp [isDiffStart, hm]
        simp [parseGo, hm, List.dropWhile_cons, h, ih]
      · have h : isDiffStart l = true := by simp [isDiffStart, hm]
        simp [parseGo, hm, List.dropWhile_cons, h, parseGo_join_some]

/-- Every emitted block opens with a marker line, and its target is the first
`+++ b/` path if present, else the marker's `b`-path. -/
theorem parseGo_targets (ls : List String) :
    ∀ cur, curOK cur → ∀ tb ∈ parseGo cur ls, ∃ l m,
      tb.2.head? = some l ∧ diffStartMatch l = some m ∧
      tb.1 = blockTarget m.2 tb.2 := by
  induction ls with
  | nil =>
      intro cur hcur tb htb
      cases cur with
      | none => simp [parseGo] at htb
      | some st =>
          obtain ⟨rev0, l, m, hrev, hm, hb⟩ := hcur
          simp [parseGo] at htb
          subst htb
          refine ⟨l, m, ?_, hm, ?_⟩
          · simp [flushBlock, hrev]
          · simp [flushBlock, hb]
  | cons l ls ih =>
      intro cur hcur tb htb
      rcases hm : diffStartMatch l with _ | m
      · cases cur with
        | none =>
            simp only [parseGo, hm] at htb
            exact ih none trivial tb htb
        | some st =>
            simp only [parseGo, hm] at htb
            obtain ⟨rev0, l0, m0, hrev, hm0, hb0⟩ := hcur
            exact ih (some (st.1, l :: st.2))
              ⟨l :: rev0, l0, m0, by simp [hrev], hm0, hb0⟩ tb htb
      · cases cur with
        | none =>
            simp only [parseGo, hm] at htb
            exact ih (some (m.2, [l])) ⟨[], l, m, rfl, hm, rfl⟩ tb htb
        | some st =>
            simp only [parseGo, hm] at htb
            rcases List.mem_cons.1 htb with htb | htb
            · obtain ⟨rev0, l0, m0, hrev, hm0, hb0⟩ := hcur
              subst htb
              refine ⟨l0, m0, ?_, hm0, ?_⟩
              · simp [flushBlock, hrev]
              · simp [flushBlock, hb0]
            · exact ih (some (m.2, [l])) ⟨[], l, m, rfl, hm, rfl⟩ tb htb

/-- C5: the parser is total and returns exactly one block per line matching
the diff-start marker (zero markers give the empty sequence); the lines of
the blocks are exactly the input lines from the first marker on (so lines
before the first marker appear in no block); and each block starts with a
marker line whose target is the first `+++ b/` path inside the block when
present, else the marker's `b`-side path. -/
theorem parse_blocks_spec (text : String) :
    (_parse_blocks text).length =
      ((pySplitlines true text).filter isDiffStart).length ∧
    (List.map Prod.snd (_parse_blocks text)).flatten =
      (pySplitlines true text).dropWhile (fun l => !isDiffStart l) ∧
    ∀ tb ∈ _parse_blocks text, ∃ l m,
      tb.2.head? = some l ∧ diffStartMatch l = some m ∧
      tb.1 = blockTarget m.2 tb.2 := by
  refine ⟨?_, ?_, ?_⟩
  · simpa using parseGo_length (pySplitlines true text) none
  · exact parseGo_join_none (pySplitlines true text)
  · exact parseGo_targets (pySplitlines true text) none trivial

/-- C5 witness: the parsed block of a one-block patch starts with its marker
line and takes its target from the `+++ b/` header. -/
theorem parse_blocks_spec_witness :
    ∃ l m,
      (("n/x", ["diff --git a/n/x b/n/x\n", "+++ b/n/x\n", "+hi\n"]) :
          String × List String).2.head? = some l ∧
      diffStartMatch l = some m ∧
      (("n/x", ["diff --git a/n/x b/n/x\n", "+++ b/n/x\n", "+hi\n"]) :
          String × List String).1 =
        blockTarget m.2
          (("n/x", ["diff --git a/n/x b/n/x\n", "+++ b/n/x\n", "+hi\n"]) :
              String × List String).2 :=
  (parse_blocks_spec "diff --git a/n/x b/n/x\n+++ b/n/x\n+hi\n").2.2
    ("n/x", ["diff --git a/n/x b/n/x\n", "+++ b/n/x\n", "+hi\n"]) (by decide)

/-- Helper for C1: processing a clean prefix, then a failing entry, stops at
the failing entry with the guardrail error, keeping the files the prefix
already wrote. -/
theorem writeManifestLoop_fail_fast (phpSan : String → String)
    (allowed_dirs : List String) (docroot : String)
    (pre post : List ManifestEntry) (bad : ManifestEntry) (p c : String)
    (hp : bad.path = some p) (hc : bad.content = some c)
    (hbad : _allowed_path (_normalize_repo_path p docroot) allowed_dirs = false) :
    ∀ fs written,
      (writeManifestLoop phpSan allowed_dirs docroot fs written pre).2 = none →
      writeManifestLoop phpSan allowed_dirs docroot fs written (pre ++ bad :: post) =
        ((writeManifestLoop phpSan allowed_dirs docroot fs written pre).1,
          some ("Path not allowed by guardrails: " ++ _normalize_repo_path p docroot)) := by
  induction pre with
  | nil =>
      intro fs written _
      obtain ⟨op, oc⟩ := bad
      simp only at hp hc
      subst hp; subst hc
      simp only [List.nil_append, writeManifestLoop, hbad]
      simp
  | cons e pre ih =>
      intro fs written hpre
      obtain ⟨op, oc⟩ := e
      match op, oc with
      | some pe, some ce =>
          by_cases ha : _allowed_path (_normalize_repo_path pe docroot) allowed_dirs
          · simp only [List.cons_append, writeManifestLoop, ha, if_true] at hpre ⊢
            exact ih _ _ hpre
          · simp only [writeManifestLoop, Bool.not_eq_true] at hpre
            rw [if_neg ha] at hpre
            cases hpre
      | some pe, none =>
          simp only [List.cons_append, writeManifestLoop] at hpre ⊢
          exact ih _ _ hpre
      | none, some ce =>
          simp only [List.cons_append, writeManifestLoop] at hpre ⊢
          exact ih _ _ hpre
      | none, none =>
          simp only [List.cons_append, writeManifestLoop] at hpre ⊢
          exact ih _ _ hpre

/-- C1 counterexample: a manifest whose first entry is valid and whose second
entry escapes the repository root raises the guardrail error naming the
offending path, but the working tree is NOT unchanged: the first entry's file
has already been written. -/
theorem manifest_partial_write_cex :
    _write_files_from_manifest id ["web/modules/custom/"] "web" []
        (some [⟨some "modules/custom/a.txt", some "A"⟩,
               ⟨some "../evil.txt", some "E"⟩]) =
      (([(["web", "modules", "custom", "a.txt"], "A")],
        [["web", "modules", "custom", "a.txt"]]),
       some "Path not allowed by guardrails: ../evil.txt") ∧
    ([(["web", "modules", "custom", "a.txt"], "A")] : FileSys) ≠ [] := by decide

/-- C1 (amended): when a manifest contains an entry whose normalized path
fails validation, the write raises an error naming the first offending
normalized path and writes nothing from that entry on — but entries before it
have already been written (fail-fast per entry, not atomic per manifest), so
the working tree equals the state after the clean prefix, not the initial
state. -/
theorem manifest_write_fail_fast (phpSan : String → String)
    (allowed_dirs : List String) (docroot : String) (fs : FileSys)
    (pre post : List ManifestEntry) (bad : ManifestEntry) (p c : String)
    (hp : bad.path = some p) (hc : bad.content = some c)
    (hbad : _allowed_path (_normalize_repo_path p docroot) allowed_dirs = false)
    (hpre : (writeManifestLoop phpSan allowed_dirs docroot fs [] pre).2 = none) :
    _write_files_from_manifest phpSan allowed_dirs docroot fs
        (some (pre ++ bad :: post)) =
      ((writeManifestLoop phpSan allowed_dirs docroot fs [] pre).1,
        some ("Path not allowed by guardrails: " ++ _normalize_repo_path p docroot)) := by
  unfold _write_files_from_manifest
  have hne : (pre ++ bad :: post).isEmpty = false := by
    cases pre <;> rfl
  simp only [hne, Bool.false_eq_true, if_false]
  exact writeManifestLoop_fail_fast phpSan allowed_dirs docroot pre post bad p c
    hp hc hbad fs [] hpre

/-- C1 witness: the amended theorem at the concrete two-entry manifest of the
counterexample. -/
theorem manifest_write_fail_fast_witness :
    _write_files_from_manifest id ["web/modules/custom/"] "web" []
        (some ([⟨some "modules/custom/a.txt", some "A"⟩] ++
          (⟨some "../evil.txt", some "E"⟩ : ManifestEntry) :: [])) =
      ((writeManifestLoop id ["web/modules/custom/"] "web" [] []
          [⟨some "modules/custom/a.txt", some "A"⟩]).1,
        some ("Path not allowed by guardrails: " ++
          _normalize_repo_path "../evil.txt" "web")) :=
  manifest_write_fail_fast id ["web/modules/custom/"] "web" []
    [⟨some "modules/custom/a.txt", some "A"⟩] []
    ⟨some "../evil.txt", some "E"⟩ "../evil.txt" "E" rfl rfl (by decide) (by decide)

/-- C2 witness: the amended invariant at a one-file patch touching
`vendor/x` under the default configuration (a blocked path, hence `high`). -/
theorem risk_level_invariant_witness :
    (assess_patch_risk ALLOWED_PREFIXES BLOCKED_PREFIXES MAX_CHANGED_FILES MAX_TOTAL_LINES
        "diff --git a/vendor/x b/vendor/x\n").files ≠ [] ∧
    (assess_patch_risk ALLOWED_PREFIXES BLOCKED_PREFIXES MAX_CHANGED_FILES MAX_TOTAL_LINES
        "diff --git a/vendor/x b/vendor/x\n").risk_level =
      (if (assess_patch_risk ALLOWED_PREFIXES BLOCKED_PREFIXES MAX_CHANGED_FILES
              MAX_TOTAL_LINES "diff --git a/vendor/x b/vendor/x\n").blocked ≠ [] ∨
          (assess_patch_risk ALLOWED_PREFIXES BLOCKED_PREFIXES MAX_CHANGED_FILES
              MAX_TOTAL_LINES "diff --git a/vendor/x b/vendor/x\n").high_risk ≠ [] ∨
          (assess_patch_risk ALLOWED_PREFIXES BLOCKED_PREFIXES MAX_CHANGED_FILES
              MAX_TOTAL_LINES "diff --git a/vendor/x b/vendor/x\n").files.length >
            MAX_CHANGED_FILES ∨
          (assess_patch_risk ALLOWED_PREFIXES BLOCKED_PREFIXES MAX_CHANGED_FILES
              MAX_TOTAL_LINES "diff --git a/vendor/x b/vendor/x\n").total_added +
            (assess_patch_risk ALLOWED_PREFIXES BLOCKED_PREFIXES MAX_CHANGED_FILES
              MAX_TOTAL_LINES "diff --git a/vendor/x b/vendor/x\n").total_removed >
            MAX_TOTAL_LINES
       then "high"
       else if (assess_patch_risk ALLOWED_PREFIXES BLOCKED_PREFIXES MAX_CHANGED_FILES
              MAX_TOTAL_LINES "diff --git a/vendor/x b/vendor/x\n").out_of_scope ≠ []
       then "medium" else "low") :=
  ⟨by decide,
   risk_level_invariant ALLOWED_PREFIXES BLOCKED_PREFIXES MAX_CHANGED_FILES
     MAX_TOTAL_LINES "diff --git a/vendor/x b/vendor/x\n" (by decide)⟩

/-- `_clean_block` is exactly a filter on the `index `-line test. -/
theorem clean_block_eq_filter (b : List String) :
    _clean_block b = b.filter (fun ln => !pyStartsWith ln "index ") := by
  induction b with
  | nil => rfl
  | cons ln rest ih =>
      by_cases hs : pyStartsWith ln "index " <;> simp [_clean_block, hs, ih]

/-- C7: the cleaned block produced by the sanitizer contains zero lines
beginning with the literal token `index ` — well-formed or malformed alike —
and all other lines are preserved in order (the output is exactly the input
filtered on that test). -/
theorem clean_block_strips_index_lines (block : List String) :
    _clean_block block = block.filter (fun ln => !pyStartsWith ln "index ") ∧
    (_clean_block block).all (fun ln => !pyStartsWith ln "index ") = true := by
  refine ⟨clean_block_eq_filter block, ?_⟩
  rw [clean_block_eq_filter block]
  simp [List.all_eq_true, List.mem_filter]

/-- C9: every directory prefix stored by the constructor ends in `/`, so a
path merely sharing a string prefix with an allowed directory (or equal to
the bare directory name) is filtered out. -/
theorem applier_prefix_normalization (dirs sufs : List String) :
    ((PatchApplier.init dirs sufs).allowed_dirs.all (fun d => pyEndsWith d "/")) = true ∧
    (PatchApplier.init ["notes"] []).acceptPath "notes2/f.md" = false ∧
    (PatchApplier.init ["notes"] []).acceptPath "notes" = false := by
  refine ⟨?_, by decide, by decide⟩
  simp only [PatchApplier.init, List.all_eq_true, List.mem_map]
  rintro d ⟨d0, _, rfl⟩
  by_cases h : pyEndsWith d0 "/"
  · simp [h]
  · simp only [h, if_false]
    show ("/".data.isSuffixOf (d0 ++ "/").data) = true
    simp [List.isSuffixOf]

/-- C10: `_normalize_repo_path` first strips leading slashes, then replaces
every backslash by a slash, and only then applies the docroot rewriting
rules; consequently an absolute-looking path is silently reinterpreted as
repo-relative, and Windows-style separators are treated like `/`. -/
theorem normalize_repo_path_order (p docroot : String) :
    _normalize_repo_path p docroot =
      docrootRewrite docroot (pyReplaceChar '\\' '/' (pyLstripChars ['/'] p)) ∧
    _normalize_repo_path "/modules/custom/x/x.module" "web" =
      "web/modules/custom/x/x.module" ∧
    _normalize_repo_path "modules\\custom\\x\\x.module" "web" =
      "web/modules/custom/x/x.module" := by
  exact ⟨rfl, by decide, by decide⟩

/-- C3 counterexample: with both directory prefixes and file suffixes
configured, a block whose target matches an allowed directory prefix but no
allowed suffix is dropped, although the claimed disjunction would retain it. -/
theorem accept_disjunction_cex :
    (PatchApplier.init ["a/"] [".py"]).keptBlocks
        "diff --git a/a/f.txt b/a/f.txt\n+x\n" = [] ∧
    pyStartsWith "a/f.txt" "a/" = true := by decide

/-- C3 (amended): a block survives exactly when each configured constraint is
met — the target matches a normalized directory prefix if any are configured,
AND matches an allowed suffix if any are configured (a conjunction, not a
disjunction); with neither configured every block is retained. -/
theorem accept_path_conjunction (dirs sufs : List String) (patch : String) :
    (PatchApplier.init dirs sufs).keptBlocks patch =
      ((_parse_blocks patch).filter (fun tb =>
          ((PatchApplier.init dirs sufs).allowed_dirs.isEmpty ||
            (PatchApplier.init dirs sufs).allowed_dirs.any fun pref =>
              pyStartsWith tb.1 pref) &&
          (sufs.isEmpty || sufs.any fun suf => pyEndsWith tb.1 suf))).map
        (fun tb => _clean_block tb.2) ∧
    (dirs = [] → sufs = [] →
      (PatchApplier.init dirs sufs).keptBlocks patch =
        (_parse_blocks patch).map (fun tb => _clean_block tb.2)) := by
  have hacc : ∀ path, (PatchApplier.init dirs sufs).acceptPath path =
      (((PatchApplier.init dirs sufs).allowed_dirs.isEmpty ||
        (PatchApplier.init dirs sufs).allowed_dirs.any fun pref =>
          pyStartsWith path pref) &&
      (sufs.isEmpty || sufs.any fun suf => pyEndsWith path suf)) := by
    intro path
    show PatchApplier.acceptPath _ path = _
    unfold PatchApplier.acceptPath
    rcases h1 : (PatchApplier.init dirs sufs).allowed_dirs.isEmpty <;>
      rcases h2 : (PatchApplier.init dirs sufs).allowed_dirs.any
          (fun pref => pyStartsWith path pref) <;>
      rcases h3 : sufs.isEmpty <;>
      rcases h4 : sufs.any (fun suf => pyEndsWith path suf) <;>
      simp_all [PatchApplier.init]
  constructor
  · unfold PatchApplier.keptBlocks
    congr 1
    exact List.filter_congr (fun tb _ => hacc tb.1)
  · rintro rfl rfl
    unfold PatchApplier.keptBlocks
    have : (_parse_blocks patch).filter
        (fun tb => (PatchApplier.init [] []).acceptPath tb.1) = _parse_blocks patch := by
      apply List.filter_eq_self.2
      intro tb _
      rw [hacc tb.1]
      simp [PatchApplier.init]
    rw [this]

/-- C3 witness: the amended theorem applied at a concrete configuration with
neither constraint configured. -/
theorem accept_path_conjunction_witness :
    (PatchApplier.init [] []).keptBlocks "diff --git a/v/x b/v/x\n+x\n" =
      (_parse_blocks "diff --git a/v/x b/v/x\n+x\n").map (fun tb => _clean_block tb.2) :=
  (accept_path_conjunction [] [] "diff --git a/v/x b/v/x\n+x\n").2 rfl rfl

/-- C6: when parsing plus allowlist filtering leaves zero blocks, apply_patch
fails with the guardrail error naming no eligible changes, and the result does
not depend on the underlying apply mechanism (it is never invoked). -/
theorem apply_patch_no_eligible (self : PatchApplier)
    (run : String → Except String Unit) (patch : String)
    (h : self.keptBlocks patch = []) :
    self.apply_patch run patch =
      Except.error "No eligible changes found after guardrails filtering." := by
  unfold PatchApplier.apply_patch
  simp [h]

/-- C6 witness: a patch whose only block targets `vendor/autoload.php` under
allowlist `["modules/custom/"]` is rejected with the no-eligible-changes
error even though the underlying apply mechanism would have succeeded. -/
theorem apply_patch_no_eligible_witness :
    (PatchApplier.init ["modules/custom/"] []).apply_patch
        (fun _ => Except.ok ())
        "diff --git a/vendor/autoload.php b/vendor/autoload.php\n+++ b/vendor/autoload.php\n+x\n" =
      Except.error "No eligible changes found after guardrails filtering." :=
  apply_patch_no_eligible (PatchApplier.init ["modules/custom/"] [])
    (fun _ => Except.ok ())
    "diff --git a/vendor/autoload.php b/vendor/autoload.php\n+++ b/vendor/autoload.php\n+x\n"
    (by decide)

/-- C4 counterexample: a patch whose only changed path is
`modules/custom/composer.lock` — a file called `composer.lock` at directory
depth two — is assessed `low`, not `high`: the high-risk check compares the
whole changed path against `HIGH_RISK_FILES`, so only a bare top-level
`composer.lock` matches. -/
theorem composer_lock_depth_cex :
    (assess_patch_risk ALLOWED_PREFIXES BLOCKED_PREFIXES MAX_CHANGED_FILES MAX_TOTAL_LINES
        "diff --git a/modules/custom/composer.lock b/modules/custom/composer.lock\n").files =
      ["modules/custom/composer.lock"] ∧
    (assess_patch_risk ALLOWED_PREFIXES BLOCKED_PREFIXES MAX_CHANGED_FILES MAX_TOTAL_LINES
        "diff --git a/modules/custom/composer.lock b/modules/custom/composer.lock\n").risk_level =
      "low" := by decide

/-- C4 (amended): whenever some changed path is exactly one of the
`HIGH_RISK_FILES` names (for instance a top-level `composer.lock`),
the risk level is `high`, independent of file and line counts and of the
configured prefixes and thresholds. -/
theorem high_risk_exact_forces_high (allowed blocked : List String)
    (maxF maxL : Nat) (patch f : String)
    (hf : f ∈ _changed_paths_from_patch patch) (hr : f ∈ HIGH_RISK_FILES) :
    (assess_patch_risk allowed blocked maxF maxL patch).risk_level = "high" := by
  unfold assess_patch_risk
  have hmem : f ∈ (_changed_paths_from_patch patch).filter
      (fun g => HIGH_RISK_FILES.contains g) :=
    List.mem_filter.2 ⟨hf, List.elem_eq_true_of_mem hr⟩
  have hne : ((_changed_paths_from_patch patch).filter
      (fun g => HIGH_RISK_FILES.contains g)).isEmpty = false := by
    rcases h : ((_changed_paths_from_patch patch).filter
        (fun g => HIGH_RISK_FILES.contains g)).isEmpty
    · rfl
    · rw [List.isEmpty_iff] at h
      rw [h] at hmem
      cases hmem
  have hfiles : (_changed_paths_from_patch patch).isEmpty = false := by
    rcases h : (_changed_paths_from_patch patch).isEmpty
    · rfl
    · rw [List.isEmpty_iff] at h
      rw [h] at hf
      cases hf
  simp only [hne, hfiles, Bool.false_eq_true, if_false]
  split <;> simp_all

/-- C4 witness: the amended theorem at a one-line patch changing exactly the
top-level `composer.lock`. -/
theorem high_risk_exact_forces_high_witness :
    (assess_patch_risk ALLOWED_PREFIXES BLOCKED_PREFIXES MAX_CHANGED_FILES MAX_TOTAL_LINES
        "diff --git a/composer.lock b/composer.lock\n").risk_level = "high" :=
  high_risk_exact_forces_high ALLOWED_PREFIXES BLOCKED_PREFIXES MAX_CHANGED_FILES
    MAX_TOTAL_LINES "diff --git a/composer.lock b/composer.lock\n" "composer.lock"
    (by decide) (by decide)



/-- Unfolding of `goodLitB` at a non-backslash head. -/
theorem goodLitB_cons_other (c : Char) (tl : List Char) (h : c ≠ '\\') :
    goodLitB (c :: tl) =
      (decide (c ≠ '"') && decide (c ≠ '\\') && decide (c.toNat ≥ 32) && goodLitB tl) := by
  rw [goodLitB.eq_def]
  split <;> simp_all

/-- Unfolding of `escInvalid` at a non-backslash head. -/
theorem escInvalid_cons_other (c : Char) (tl : List Char) (h : c ≠ '\\') :
    escInvalid (c :: tl) = c :: escInvalid tl := by
  rw [escInvalid.eq_def]
  split <;> simp_all

/-- The JSON string scanner consumes an ordinary character unchanged. -/
theorem jsonScanGo_cons_other (c : Char) (rest : List Char)
    (h1 : c ≠ '"') (h2 : c ≠ '\\') (h3 : ¬ c.toNat < 32) :
    jsonScanGo (c :: rest) = (jsonScanGo rest).map (fun p => (c :: p.1, p.2)) := by
  rw [jsonScanGo.eq_def]
  split <;> simp_all



/-- Outside a string literal, the escape repair copies quote-free text. -/
theorem repair1_passthrough (p : List Char) (hq : ∀ c ∈ p, c ≠ '"')
    (e : Bool) (rest : List Char) :
    repair1Go false e (p ++ rest) = p ++ repair1Go false e rest := by
  induction p with
  | nil => rfl
  | cons c p ih =>
      have hc : c ≠ '"' := hq c (List.mem_cons_self c p)
      simp [repair1Go, hc, ih (fun c h => hq c (List.mem_cons_of_mem _ h))]

/-- Inside a string literal of intended contents `s`, the escape repair
doubles exactly the invalid-escape backslashes. -/
theorem repair1_instring (s : List Char) (h : goodLitB s = true) (rest : List Char) :
    repair1Go true false (s ++ rest) = escInvalid s ++ repair1Go true false rest := by
  induction s using goodLitB.induct with
  | case1 => simp [escInvalid]
  | case2 c tl ih =>
      simp only [goodLitB, Bool.and_eq_true, Bool.not_eq_true', decide_eq_true_eq] at h
      obtain ⟨⟨hv, h32⟩, htl⟩ := h
      simp [repair1Go, escInvalid, hv, ih htl]
  | case3 c tl hne ih =>
      have hbs : c ≠ '\\' := by
        intro hcc
        subst hcc
        match tl, h with
        | [], h => exact absurd h (by decide)
        | c2 :: tl2, _ => exact hne c2 tl2 rfl rfl
      rw [goodLitB_cons_other c tl hbs] at h
      simp only [Bool.and_eq_true, decide_eq_true_eq] at h
      obtain ⟨⟨⟨hq, _⟩, _⟩, htl⟩ := h
      rw [escInvalid_cons_other c tl hbs]
      simp [repair1Go, hq, hbs, ih htl]

/-- The control-character pass leaves text without literal newline, carriage
return or tab characters unchanged, from any state. -/
theorem escCtrl_id (l : List Char)
    (h : ∀ c ∈ l, c ≠ '\n' ∧ c ≠ '\r' ∧ c ≠ '\t') :
    ∀ inS esc, escCtrlGo inS esc l = l := by
  induction l with
  | nil => intro _ _; rfl
  | cons c tl ih =>
      intro inS esc
      obtain ⟨h1, h2, h3⟩ := h c (List.mem_cons_self c tl)
      have ih' := ih (fun c hc => h c (List.mem_cons_of_mem _ hc))
      cases inS
      · by_cases hc : c = '"' <;> simp [escCtrlGo, hc, ih']
      · cases esc
        · by_cases hb : c = '\\'
          · simp [escCtrlGo, hb, ih']
          · by_cases hc : c = '"'
            · simp [escCtrlGo, hb, hc, ih']
            · simp [escCtrlGo, hb, hc, h1, h2, h3, ih']
        · simp [escCtrlGo, ih']

/-- A repaired good literal contains no literal newline, carriage return or
tab characters. -/
theorem goodLit_escInvalid_no_ctrl (s : List Char) (h : goodLitB s = true) :
    ∀ c ∈ escInvalid s, c ≠ '\n' ∧ c ≠ '\r' ∧ c ≠ '\t' := by
  induction s using goodLitB.induct with
  | case1 => intro c hc; cases hc
  | case2 c tl ih =>
      simp only [goodLitB, Bool.and_eq_true, Bool.not_eq_true', decide_eq_true_eq] at h
      obtain ⟨⟨hv, h32⟩, htl⟩ := h
      intro d hd
      simp only [escInvalid, List.mem_cons] at hd
      rcases hd with rfl | rfl | rfl | hd
      · exact ⟨by decide, by decide, by decide⟩
      · exact ⟨by decide, by decide, by decide⟩
      · constructor
        · intro he; subst he; exact absurd h32 (by decide)
        · constructor
          · intro he; subst he; exact absurd h32 (by decide)
          · intro he; subst he; exact absurd h32 (by decide)
      · exact ih htl d hd
  | case3 c tl hne ih =>
      have hbs : c ≠ '\\' := by
        intro hcc
        subst hcc
        match tl, h with
        | [], h => exact absurd h (by decide)
        | c2 :: tl2, _ => exact hne c2 tl2 rfl rfl
      rw [goodLitB_cons_other c tl hbs] at h
      simp only [Bool.and_eq_true, decide_eq_true_eq] at h
      obtain ⟨⟨⟨hq, _⟩, h32⟩, htl⟩ := h
      rw [escInvalid_cons_other c tl hbs]
      intro d hd
      simp only [List.mem_cons] at hd
      rcases hd with rfl | hd
      · constructor
        · intro he; subst he; exact absurd h32 (by decide)
        · constructor
          · intro he; subst he; exact absurd h32 (by decide)
          · intro he; subst he; exact absurd h32 (by decide)
      · exact ih htl d hd

/-- The JSON string scanner decodes the repaired literal back to the intended
contents, with each backslash present exactly once. -/
theorem jsonScan_escInvalid (s : List Char) (h : goodLitB s = true) (q : List Char) :
    jsonScanGo (escInvalid s ++ '"' :: q) = some (s, q) := by
  induction s using goodLitB.induct with
  | case1 => rfl
  | case2 c tl ih =>
      simp only [goodLitB, Bool.and_eq_true, Bool.not_eq_true', decide_eq_true_eq] at h
      obtain ⟨⟨hv, h32⟩, htl⟩ := h
      have hbs : c ≠ '\\' := by
        intro hcc; rw [hcc] at hv; exact absurd hv (by decide)
      have hq : c ≠ '"' := by
        intro hcc; rw [hcc] at hv; exact absurd hv (by decide)
      have h32' : ¬ c.toNat < 32 := by omega
      show jsonScanGo ('\\' :: '\\' :: c :: (escInvalid tl ++ '"' :: q)) = _
      have step1 : jsonScanGo ('\\' :: '\\' :: c :: (escInvalid tl ++ '"' :: q)) =
          (jsonScanGo (c :: (escInvalid tl ++ '"' :: q))).map
            (fun p => ('\\' :: p.1, p.2)) := by
        simp [jsonScanGo, decodeEsc]
      rw [step1, jsonScanGo_cons_other c _ hq hbs h32', ih htl]
      rfl
  | case3 c tl hne ih =>
      have hbs : c ≠ '\\' := by
        intro hcc
        subst hcc
        match tl, h with
        | [], h => exact absurd h (by decide)
        | c2 :: tl2, _ => exact hne c2 tl2 rfl rfl
      rw [goodLitB_cons_other c tl hbs] at h
      simp only [Bool.and_eq_true, decide_eq_true_eq] at h
      obtain ⟨⟨⟨hq, _⟩, h32⟩, htl⟩ := h
      have h32' : ¬ c.toNat < 32 := by omega
      rw [escInvalid_cons_other c tl hbs]
      show jsonScanGo (c :: (escInvalid tl ++ '"' :: q)) = _
      rw [jsonScanGo_cons_other c _ hq hbs h32', ih htl]
      rfl



/-- C8: for a JSON text that is a string literal with intended contents `s`
(in a quote-free context `p`, `q`), where every backslash of `s` precedes a
character outside the valid JSON escape set, the repair pipeline (escape
repair, then control-character escaping) yields text whose string literal
parses under the `json.loads` string rules, and the parsed contents equal `s`
exactly — each backslash present exactly once, no double-unescaping and no
lost backslashes. -/
theorem json_repair_roundtrip (p s q : List Char)
    (hp1 : ∀ c ∈ p, c ≠ '"')
    (hp2 : ∀ c ∈ p, c ≠ '\n' ∧ c ≠ '\r' ∧ c ≠ '\t')
    (hs : goodLitB s = true)
    (hq1 : ∀ c ∈ q, c ≠ '"')
    (hq2 : ∀ c ∈ q, c ≠ '\n' ∧ c ≠ '\r' ∧ c ≠ '\t') :
    jsonParseStringToken
        ((repairPipeline (p ++ '"' :: (s ++ '"' :: q))).drop p.length) =
      some (s, q) := by
  have hq' : repair1Go false false q = q := by
    have hnil : repair1Go false false [] = ([] : List Char) := rfl
    have := repair1_passthrough q hq1 false []
    simpa [hnil] using this
  have hin : repair1Go true false (s ++ '"' :: q) =
      escInvalid s ++ '"' :: q := by
    rw [repair1_instring s hs ('"' :: q)]
    congr 1
    show repair1Go true false ('"' :: q) = '"' :: q
    have h0 : repair1Go true false ('"' :: q) = '"' :: repair1Go false false q := by
      simp [repair1Go]
    rw [h0, hq']
  have step1 : repair1Go false false (p ++ '"' :: (s ++ '"' :: q)) =
      p ++ '"' :: (escInvalid s ++ '"' :: q) := by
    rw [repair1_passthrough p hp1 false _]
    congr 1
    show repair1Go false false ('"' :: (s ++ '"' :: q)) = _
    have h0 : repair1Go false false ('"' :: (s ++ '"' :: q)) =
        '"' :: repair1Go true false (s ++ '"' :: q) := by
      simp [repair1Go]
    rw [h0, hin]
  have hctrl : ∀ c ∈ p ++ '"' :: (escInvalid s ++ '"' :: q),
      c ≠ '\n' ∧ c ≠ '\r' ∧ c ≠ '\t' := by
    intro c hc
    rcases List.mem_append.1 hc with hc | hc
    · exact hp2 c hc
    · rcases List.mem_cons.1 hc with rfl | hc
      · exact ⟨by decide, by decide, by decide⟩
      · rcases List.mem_append.1 hc with hc | hc
        · exact goodLit_escInvalid_no_ctrl s hs c hc
        · rcases List.mem_cons.1 hc with rfl | hc
          · exact ⟨by decide, by decide, by decide⟩
          · exact hq2 c hc
  have step2 : repairPipeline (p ++ '"' :: (s ++ '"' :: q)) =
      p ++ '"' :: (escInvalid s ++ '"' :: q) := by
    unfold repairPipeline
    rw [step1]
    exact escCtrl_id _ hctrl false false
  rw [step2, List.drop_left]
  show jsonScanGo (escInvalid s ++ '"' :: q) = some (s, q)
  exact jsonScan_escInvalid s hs q

/-- C8 witness: the round trip at the literal contents `\Drupal\Core`. -/
theorem json_repair_roundtrip_witness :
    jsonParseStringToken
        ((repairPipeline ([] ++ '"' :: ("\\Drupal\\Core".data ++ '"' :: []))).drop
          (List.length ([] : List Char))) =
      some ("\\Drupal\\Core".data, []) :=
  json_repair_roundtrip [] "\\Drupal\\Core".data []
    (by intro c hc; cases hc) (by intro c hc; cases hc) (by decide)
    (by intro c hc; cases hc) (by intro c hc; cases hc)


end Copilot
